import Mathlib

/-!
# Gearsystem memory subsystem: a verification development

Shallow embedding of the Gearsystem (Sega Master System / Game Gear / SG-1000
emulator) memory subsystem and of its libretro platform glue, together with
proofs of the specified properties.

The repository provides `src/src/Memory.h` (the `Memory` dispatcher interface)
and `src/platforms/libretro/libretro.cpp` (the libretro frontend, complete
source).  The bodies of `Memory`, the `MemoryRule` family and `GearsystemCore`
are not part of the sources, so those components are modelled from the
specification; the libretro functions are translated from the source.

Bytes are `Nat` values masked by `% 0x100` at the write boundary; addresses are
`Nat` values masked by `% 0x10000` (the 16-bit bus).
-/

/-- The five mapper hardware families of the spec (§4.2):
RomOnly, Sega, Codemasters, Korean, SG1000. -/
inductive MapperFamily
  | romOnly
  | sega
  | codemasters
  | korean
  | sg1000
  deriving DecidableEq, Repr

/-- Modelled from the spec: the Sega mapper's private bank registers
(`SegaMemoryRule` is not under the sources).  Three independently selectable
16KB ROM banks for the three fixed windows, plus the control register state:
whether cartridge RAM is mapped over the last window, and which RAM bank. -/
structure SegaRegs where
  bank0 : Nat
  bank1 : Nat
  bank2 : Nat
  ramEnabled : Bool
  ramBank : Nat
  deriving DecidableEq, Repr

/-- Modelled from the spec: the per-family private mapper state
(the `MemoryRule` subclasses are not under the sources).  The Sega variant
also owns the (up to two 16KB banks of) battery-backed cartridge RAM. -/
inductive MapperState
  | romOnly
  | sega (regs : SegaRegs) (cartRam : Fin 0x8000 → Nat)
  | codemasters (b0 b1 b2 : Nat)
  | korean (b : Nat)
  | sg1000

/-- The family tag of a mapper state. -/
def MapperState.family : MapperState → MapperFamily
  | .romOnly => .romOnly
  | .sega _ _ => .sega
  | .codemasters _ _ _ => .codemasters
  | .korean _ => .korean
  | .sg1000 => .sg1000

/-- Modelled from the spec: the `Memory` state (the `Memory` implementation is
not under the sources, only its header).  The flat 64KB map, the immutable
cartridge ROM bytes, the active mapper rule state, and the debugger
bookkeeping (breakpoint addresses and the one-shot run-to target). -/
@[ext] structure MemState where
  map : Fin 0x10000 → Nat
  rom : List Nat
  mapper : MapperState
  breakpoints : List Nat
  runTo : Option Nat

/-- Coerce a (masked) address into the flat-map index type. -/
def toFin (address : Nat) : Fin 0x10000 :=
  ⟨address % 0x10000, Nat.mod_lt _ (by decide)⟩

/-- Modelled from the spec: the fixed direct/delegated partition test used by
the `Memory` dispatcher.  Cartridge windows `[0x0000, 0xBFFF]` are delegated
to the active rule; under the Sega mapper the bank-select/control bytes at the
top of the address space (`0xFFFC..0xFFFF`) are delegated as well; everything
else is directly-addressed RAM in the flat map. -/
def delegatedB (fam : MapperFamily) (a : Nat) : Bool :=
  a < 0xC000 || (fam == .sega && 0xFFFC ≤ a)

/-- The delegated address ranges per family, as closed intervals. -/
def delegatedRanges (fam : MapperFamily) : List (Nat × Nat) :=
  if fam = .sega then [(0x0000, 0xBFFF), (0xFFFC, 0xFFFF)] else [(0x0000, 0xBFFF)]

/-- The directly-addressed RAM ranges per family, as closed intervals. -/
def directRanges (fam : MapperFamily) : List (Nat × Nat) :=
  if fam = .sega then [(0xC000, 0xFFFB)] else [(0xC000, 0xFFFF)]

/-- Membership of an address in a list of closed intervals. -/
def inRanges (rs : List (Nat × Nat)) (a : Nat) : Prop :=
  ∃ r ∈ rs, r.1 ≤ a ∧ a ≤ r.2

instance (rs : List (Nat × Nat)) (a : Nat) : Decidable (inRanges rs a) := by
  unfold inRanges; infer_instance

/-- The ROM bank a Sega-mapper window currently selects. -/
def SegaRegs.bankFor (regs : SegaRegs) (w : Nat) : Nat :=
  if w = 0 then regs.bank0 else if w = 1 then regs.bank1 else regs.bank2

/-- Index into the Sega cartridge RAM: selected 16KB bank plus intra-window
offset. -/
def cartRamIdx (ramBank a : Nat) : Fin 0x8000 :=
  ⟨ramBank % 2 * 0x4000 + a % 0x4000, by
    have h1 : a % 0x4000 < 0x4000 := Nat.mod_lt _ (by decide)
    have h2 : ramBank % 2 < 2 := Nat.mod_lt _ (by decide)
    omega⟩

/-- Modelled from the spec: `MemoryRule::PerformRead` for each family (the
`MemoryRule` subclasses are not under the sources).  `a` is the masked
address of a delegated access.
* RomOnly / SG1000: the ROM is mapped statically.
* Sega: the top-of-space register bytes read back the register values;
  otherwise the window's selected 16KB bank of ROM is indexed — unless the
  control register maps cartridge RAM over the last window.
* Codemasters: each window indexes its selected 16KB bank.
* Korean: windows 0 and 1 are fixed to banks 0 and 1; window 2 is movable. -/
def ruleRead (rom : List Nat) (m : MapperState) (a : Nat) : Nat :=
  match m with
  | .romOnly => rom.getD a 0
  | .sg1000 => rom.getD a 0
  | .sega regs ram =>
    if 0xFFFC ≤ a then
      if a = 0xFFFC then (cond regs.ramEnabled 8 0) + regs.ramBank % 2 * 4
      else if a = 0xFFFD then regs.bank0 % 0x100
      else if a = 0xFFFE then regs.bank1 % 0x100
      else regs.bank2 % 0x100
    else
      if a / 0x4000 = 2 ∧ regs.ramEnabled then ram (cartRamIdx regs.ramBank a)
      else rom.getD (regs.bankFor (a / 0x4000) * 0x4000 + a % 0x4000) 0
  | .codemasters b0 b1 b2 =>
    let b := if a / 0x4000 = 0 then b0 else if a / 0x4000 = 1 then b1 else b2
    rom.getD (b * 0x4000 + a % 0x4000) 0
  | .korean b =>
    if a / 0x4000 = 2 then rom.getD (b * 0x4000 + a % 0x4000) 0
    else rom.getD a 0

/-- Modelled from the spec: `MemoryRule::PerformWrite` for each family (the
`MemoryRule` subclasses are not under the sources).  `a` is the masked address
and `v` the masked byte.
* RomOnly / SG1000: writes into ROM windows are no-ops.
* Sega: writes to `0xFFFC` update the RAM-control register (bit 3 enables
  cartridge RAM over the last window, bit 2 selects the RAM bank); writes to
  `0xFFFD`/`0xFFFE`/`0xFFFF` select the ROM bank of windows 0/1/2; a write
  into the last window stores into cartridge RAM when it is mapped; all other
  ROM-window writes are ignored.  Bank-select writes never touch the flat map
  or the ROM.
* Codemasters: a write to the first byte of a window (`0x0000`, `0x4000`,
  `0x8000`) makes the written value that window's bank index; other writes
  are ignored.
* Korean: a write to the single fixed register address `0xA000` selects the
  movable window's bank; other writes are ignored. -/
def ruleWrite (m : MapperState) (a v : Nat) : MapperState :=
  match m with
  | .romOnly => .romOnly
  | .sg1000 => .sg1000
  | .sega regs ram =>
    if 0xFFFC ≤ a then
      if a = 0xFFFC then
        .sega { regs with ramEnabled := v / 8 % 2 == 1, ramBank := v / 4 % 2 } ram
      else if a = 0xFFFD then .sega { regs with bank0 := v } ram
      else if a = 0xFFFE then .sega { regs with bank1 := v } ram
      else .sega { regs with bank2 := v } ram
    else
      if a / 0x4000 = 2 ∧ regs.ramEnabled then
        .sega regs (Function.update ram (cartRamIdx regs.ramBank a) v)
      else .sega regs ram
  | .codemasters b0 b1 b2 =>
    if a = 0x0000 then .codemasters v b1 b2
    else if a = 0x4000 then .codemasters b0 v b2
    else if a = 0x8000 then .codemasters b0 b1 v
    else .codemasters b0 b1 b2
  | .korean b => if a = 0xA000 then .korean v else .korean b

/-- Modelled from the spec: `Memory::Read` resolves the address against the
fixed partition — a delegated address is answered by the active rule, a
direct one by the flat map.  This is the returned byte; the debugger
bookkeeping component is `memReadDbg`. -/
def memRead (s : MemState) (address : Nat) : Nat :=
  let a := address % 0x10000
  if delegatedB s.mapper.family a then ruleRead s.rom s.mapper a
  else s.map (toFin address)

/-- Modelled from the spec: `Memory::Read(address, pc)` with its debugger
bookkeeping.  The second component records whether a breakpoint/run-to hit is
flagged for this access; the `pc` argument takes part only in that
bookkeeping, never in the returned byte (the first component). -/
def memReadDbg (s : MemState) (address pc : Nat) : Nat × Bool :=
  (memRead s address,
    s.breakpoints.contains (address % 0x10000) || s.runTo == some (pc % 0x10000))

/-- Modelled from the spec: `Memory::Write` — a delegated address is handed to
the active rule (which may store into cartridge RAM, mutate its bank-select
registers, or ignore the byte); a direct address stores the masked byte into
the flat map. -/
def memWrite (s : MemState) (address value : Nat) : MemState :=
  let a := address % 0x10000
  let v := value % 0x100
  if delegatedB s.mapper.family a then { s with mapper := ruleWrite s.mapper a v }
  else { s with map := Function.update s.map (toFin address) v }

/-- Modelled from the spec: a mapper rule's `Reset` — bank registers return to
their power-on defaults (windows 0/1/2 map banks 0/1/2; cartridge RAM
unmapped) while battery-backed cartridge RAM contents are preserved. -/
def MapperState.reset : MapperState → MapperState
  | .sega _ ram => .sega ⟨0, 1, 2, false, 0⟩ ram
  | .codemasters _ _ _ => .codemasters 0 1 2
  | .korean _ => .korean 2
  | .romOnly => .romOnly
  | .sg1000 => .sg1000

/-- Modelled from the spec: `Memory::Reset` — clear the directly-addressed
RAM, ask the active rule to reset its bank registers to power-on defaults,
preserve battery-backed cartridge RAM. -/
def memReset (s : MemState) : MemState :=
  { s with map := fun _ => 0, mapper := s.mapper.reset }

/-- Modelled from the spec: a mapper rule freshly constructed at cartridge
load time — power-on register defaults and empty cartridge RAM. -/
def initMapper : MapperFamily → MapperState
  | .romOnly => .romOnly
  | .sega => .sega ⟨0, 1, 2, false, 0⟩ (fun _ => 0)
  | .codemasters => .codemasters 0 1 2
  | .korean => .korean 2
  | .sg1000 => .sg1000

/-- Modelled from the spec: a freshly `Init`-ed and reset `Memory` with a
newly loaded cartridge — zeroed flat map, the given ROM, a fresh mapper rule
of the detected family, and cleared debugger state. -/
def freshWithRom (rom : List Nat) (fam : MapperFamily) : MemState :=
  { map := fun _ => 0
    rom := rom
    mapper := initMapper fam
    breakpoints := []
    runTo := none }

/-- Run a sequence of CPU writes (address, value pairs) against a state. -/
def execWrites (s : MemState) (ws : List (Nat × Nat)) : MemState :=
  ws.foldl (fun m w => memWrite m w.1 w.2) s

/-- The battery-backed cartridge RAM owned by the active rule (zero for
families without cartridge RAM). -/
def MemState.cartRamOf (s : MemState) : Fin 0x8000 → Nat :=
  match s.mapper with
  | .sega _ ram => ram
  | _ => fun _ => 0

/-- The serialization tag identifying a mapper family in a save state. -/
def famTag : MapperFamily → Nat
  | .romOnly => 0
  | .sega => 1
  | .codemasters => 2
  | .korean => 3
  | .sg1000 => 4

/-- Decode a mapper-family tag; an unrecognized tag yields `none`. -/
def decodeFam (tag : Nat) : Option MapperFamily :=
  if tag = 0 then some .romOnly
  else if tag = 1 then some .sega
  else if tag = 2 then some .codemasters
  else if tag = 3 then some .korean
  else if tag = 4 then some .sg1000
  else none

/-- Modelled from the spec: the serialized size of a mapper rule's private
state (family tag, registers, and for the Sega family the cartridge RAM). -/
def mapperStateSize : MapperFamily → Nat
  | .romOnly => 1
  | .sega => 6 + 0x8000
  | .codemasters => 4
  | .korean => 2
  | .sg1000 => 1

/-- Modelled from the spec: a mapper rule's `SaveState` — the family tag
followed by the family's private register state (and cartridge RAM for the
Sega family). -/
def serializeMapper : MapperState → List Nat
  | .romOnly => [0]
  | .sega regs ram =>
    [1, regs.bank0, regs.bank1, regs.bank2, cond regs.ramEnabled 1 0, regs.ramBank]
      ++ List.ofFn (fun i : Fin 0x8000 => ram i)
  | .codemasters b0 b1 b2 => [2, b0, b1, b2]
  | .korean b => [3, b]
  | .sg1000 => [4]

/-- Modelled from the spec: `Memory::SaveState` with a real buffer — the full
flat-map bytes followed by the active mapper family's tag and private state,
in a fixed order. -/
def memSaveState (s : MemState) : List Nat :=
  List.ofFn (fun i : Fin 0x10000 => s.map i) ++ serializeMapper s.mapper

/-- Modelled from the spec: the size-only phase of `SaveState` — calling with
a NULL buffer computes the required byte count without producing a buffer. -/
def saveStateSizeOf (s : MemState) : Nat :=
  0x10000 + mapperStateSize s.mapper.family

/-- From the source (`libretro.cpp`, `retro_serialize_size`): obtain the save
state size by calling `core->SaveState(NULL, size)` and return the computed
count. -/
def retro_serialize_size (s : MemState) : Nat :=
  saveStateSizeOf s

/-- Rebuild a mapper state of the given (already decoded) family from the
buffer offsets that `serializeMapper` uses. -/
def decodeMapper (fam : MapperFamily) (buf : List Nat) : MapperState :=
  match fam with
  | .romOnly => .romOnly
  | .sega =>
    .sega
      { bank0 := buf.getD 0x10001 0
        bank1 := buf.getD 0x10002 0
        bank2 := buf.getD 0x10003 0
        ramEnabled := buf.getD 0x10004 0 == 1
        ramBank := buf.getD 0x10005 0 }
      (fun i => buf.getD (0x10006 + i) 0)
  | .codemasters => .codemasters (buf.getD 0x10001 0) (buf.getD 0x10002 0) (buf.getD 0x10003 0)
  | .korean => .korean (buf.getD 0x10001 0)
  | .sg1000 => .sg1000

/-- Modelled from the spec: `Memory::LoadState` — validate the buffer (the
mapper-family tag must be recognized and the length must be exactly what that
family's state requires), then restore the flat map and the mapper state; a
failed validation restores nothing and reports failure.  The loaded cartridge
ROM and the debugger bookkeeping are not part of a save state. -/
def memLoadState (buf : List Nat) (s : MemState) : Option MemState :=
  match decodeFam (buf.getD 0x10000 0) with
  | none => none
  | some fam =>
    if buf.length = 0x10000 + mapperStateSize fam then
      some { s with map := fun i => buf.getD i 0, mapper := decodeMapper fam buf }
    else none

/-- From the source (`libretro.cpp`, `retro_unserialize`): return the boolean
outcome of `core->LoadState(data, size)`. -/
def retro_unserialize (s : MemState) (buf : List Nat) : Bool :=
  (memLoadState buf s).isSome

/-! ## libretro memory-map interface (`retro_get_memory_data` / `_size`) -/

/-- libretro memory id for battery-backed save RAM. -/
def RETRO_MEMORY_SAVE_RAM : Nat := 0

/-- libretro memory id for system RAM. -/
def RETRO_MEMORY_SYSTEM_RAM : Nat := 2

/-- An abstract pointer result of `retro_get_memory_data`: either the active
rule's cartridge-RAM banks, or a pointer into the flat 64KB map at a fixed
byte offset. -/
inductive RetroMemPtr
  | saveRamBanks
  | flatMapAt (offset : Nat)
  deriving DecidableEq, Repr

/-- From the source (`libretro.cpp`, `retro_get_memory_data`): save RAM maps
to the rule's RAM banks, system RAM to the flat map at offset `0xC000`, and
every other id to NULL. -/
def retro_get_memory_data (id : Nat) : Option RetroMemPtr :=
  if id = RETRO_MEMORY_SAVE_RAM then some .saveRamBanks
  else if id = RETRO_MEMORY_SYSTEM_RAM then some (.flatMapAt 0xC000)
  else none

/-- Modelled from the spec: the active rule's `GetRamSize` (the `MemoryRule`
subclasses are not under the sources) — the Sega family exposes its
cartridge-RAM banks, the other families none. -/
def ruleRamSize (fam : MapperFamily) : Nat :=
  if fam = .sega then 0x8000 else 0

/-- From the source (`libretro.cpp`, `retro_get_memory_size`): save RAM
reports the rule's RAM size, system RAM reports `0x2000`, every other id
reports zero. -/
def retro_get_memory_size (s : MemState) (id : Nat) : Nat :=
  if id = RETRO_MEMORY_SAVE_RAM then ruleRamSize s.mapper.family
  else if id = RETRO_MEMORY_SYSTEM_RAM then 0x2000
  else 0

/-! ## libretro input polling (`update_input`) -/

/-- libretro joypad button ids used by `update_input`. -/
def JOYPAD_B : Nat := 0
def JOYPAD_START : Nat := 3
def JOYPAD_UP : Nat := 4
def JOYPAD_DOWN : Nat := 5
def JOYPAD_LEFT : Nat := 6
def JOYPAD_RIGHT : Nat := 7
def JOYPAD_A : Nat := 8

/-- The Gearsystem core key names `update_input` forwards to. -/
inductive GSKey
  | up
  | down
  | left
  | right
  | key1
  | key2
  | start
  deriving DecidableEq, Repr

/-- A call `update_input` makes into the core: `KeyPressed` or `KeyReleased`
for a player and key. -/
inductive InputEvent
  | pressed (player : Nat) (k : GSKey)
  | released (player : Nat) (k : GSKey)
  deriving DecidableEq, Repr

/-- From the source (`libretro.cpp`, `update_input`): the calls issued for one
directional button.  If the button is reported held, `KeyPressed` is issued
only when `allow_up_down` is set or the opposing direction is not held
(otherwise no call is made at all); if it is not held, `KeyReleased` is
issued. -/
def dirEvents (allow held oppositeHeld : Bool) (player : Nat) (k : GSKey) : List InputEvent :=
  if held then
    if allow || !oppositeHeld then [.pressed player k] else []
  else [.released player k]

/-- From the source (`libretro.cpp`, `update_input`): the calls issued for a
non-directional button — held issues `KeyPressed`, not held `KeyReleased`. -/
def btnEvents (held : Bool) (player : Nat) (k : GSKey) : List InputEvent :=
  if held then [.pressed player k] else [.released player k]

/-- From the source (`libretro.cpp`, `update_input`): the per-player body of
the poll loop, in source order — Up, Down, Left, Right with opposing-direction
suppression, then B→Key_1, A→Key_2, Start→Key_Start. -/
def playerEvents (allow : Bool) (inp : Nat → Nat → Bool) (p : Nat) : List InputEvent :=
  dirEvents allow (inp p JOYPAD_UP) (inp p JOYPAD_DOWN) p .up
    ++ dirEvents allow (inp p JOYPAD_DOWN) (inp p JOYPAD_UP) p .down
    ++ dirEvents allow (inp p JOYPAD_LEFT) (inp p JOYPAD_RIGHT) p .left
    ++ dirEvents allow (inp p JOYPAD_RIGHT) (inp p JOYPAD_LEFT) p .right
    ++ btnEvents (inp p JOYPAD_B) p .key1
    ++ btnEvents (inp p JOYPAD_A) p .key2
    ++ btnEvents (inp p JOYPAD_START) p .start

/-- From the source (`libretro.cpp`, `update_input`): one input poll — the
sequence of core calls issued for the two players. -/
def update_input (allow : Bool) (inp : Nat → Nat → Bool) : List InputEvent :=
  playerEvents allow inp 0 ++ playerEvents allow inp 1

/-- A Sega-mapper state with cartridge RAM currently mapped over the last
window (control-register RAM-enable bit set) and a one-byte ROM, used to
analyze the bank-switch determinism claim. -/
def segaRamMappedState : MemState :=
  { map := fun _ => 0
    rom := [7]
    mapper := .sega ⟨0, 1, 2, true, 0⟩ (fun _ => 0)
    breakpoints := []
    runTo := none }

/-! ## Theorems -/

/-- C5: For every address and every pair of pc values, `Read(address, pc1)`
and `Read(address, pc2)` executed from the same state return the same byte:
the `pc` argument never affects the returned value, being carried only for
breakpoint and disassembly bookkeeping. -/
theorem c5_pc_never_affects_value (s : MemState) (address pc1 pc2 : Nat) :
    (memReadDbg s address pc1).1 = (memReadDbg s address pc2).1 :=
  rfl

/-- C6: Calling `SaveState` with a NULL buffer computes and returns the exact
number of bytes a subsequent `SaveState` with a real buffer will write, so
the caller can allocate then serialize in two phases; `retro_serialize_size`
obtains this count by calling `SaveState(NULL, size)`. -/
theorem c6_null_savestate_exact_size (s : MemState) :
    retro_serialize_size s = (memSaveState s).length := by
  rw [memSaveState, List.length_append, List.length_ofFn,
    retro_serialize_size, saveStateSizeOf]
  congr 1
  cases s.mapper <;>
    simp only [serializeMapper, mapperStateSize, MapperState.family,
      List.length_append, List.length_ofFn, List.length_cons, List.length_nil]

/-- C9: `retro_get_memory_data` returns NULL and `retro_get_memory_size`
returns 0 for every memory id other than `RETRO_MEMORY_SAVE_RAM` and
`RETRO_MEMORY_SYSTEM_RAM`; for `RETRO_MEMORY_SYSTEM_RAM` the returned pointer
is the flat 64KB map at fixed offset `0xC000` and the returned size is
exactly `0x2000` bytes, independent of the loaded cartridge. -/
theorem c9_retro_memory_map (s t : MemState) (id : Nat) :
    (id ≠ RETRO_MEMORY_SAVE_RAM → id ≠ RETRO_MEMORY_SYSTEM_RAM →
      retro_get_memory_data id = none ∧ retro_get_memory_size s id = 0)
    ∧ retro_get_memory_data RETRO_MEMORY_SYSTEM_RAM = some (.flatMapAt 0xC000)
    ∧ retro_get_memory_size s RETRO_MEMORY_SYSTEM_RAM = 0x2000
    ∧ retro_get_memory_size s RETRO_MEMORY_SYSTEM_RAM
        = retro_get_memory_size t RETRO_MEMORY_SYSTEM_RAM := by
  refine ⟨fun h1 h2 => ?_, ?_, ?_, ?_⟩ <;>
    simp_all [retro_get_memory_data, retro_get_memory_size,
      RETRO_MEMORY_SAVE_RAM, RETRO_MEMORY_SYSTEM_RAM]

/-- C9 witness: at the concrete id 1 (`RETRO_MEMORY_RTC`) the data pointer is
NULL and the size is 0, while the system-RAM id reports the flat map at
`0xC000` with size `0x2000`. -/
theorem c9_retro_memory_map_witness :
    retro_get_memory_data 1 = none
    ∧ retro_get_memory_size (freshWithRom [] .romOnly) 1 = 0
    ∧ retro_get_memory_data RETRO_MEMORY_SYSTEM_RAM = some (.flatMapAt 0xC000)
    ∧ retro_get_memory_size (freshWithRom [] .romOnly) RETRO_MEMORY_SYSTEM_RAM = 0x2000 := by
  have h := c9_retro_memory_map (freshWithRom [] .romOnly) (freshWithRom [] .romOnly) 1
  exact ⟨(h.1 (by decide) (by decide)).1, (h.1 (by decide) (by decide)).2, h.2.1, h.2.2.1⟩

/-- The dispatcher's boolean partition test agrees with the delegated interval
ranges, for in-range addresses. -/
theorem delegatedB_iff_inRanges (fam : MapperFamily) (a : Nat) (ha : a ≤ 0xFFFF) :
    delegatedB fam a = true ↔ inRanges (delegatedRanges fam) a := by
  cases fam <;> simp [delegatedB, delegatedRanges, inRanges] <;> omega

/-- The dispatcher's boolean partition test negated agrees with the direct
interval ranges, for in-range addresses. -/
theorem not_delegatedB_iff_inRanges (fam : MapperFamily) (a : Nat) (ha : a ≤ 0xFFFF) :
    delegatedB fam a = false ↔ inRanges (directRanges fam) a := by
  cases fam <;> simp [delegatedB, directRanges, inRanges] <;> omega

/-- C4: For every address in `[0, 0xFFFF]` and every state with an active
Mapper Rule, `Read` and `Write` resolve the address through exactly one of
the direct RAM map or the active Mapper Rule: the direct and delegated ranges
partition the whole space, never overlap, and leave no address unresolved. -/
theorem c4_partition_totality (s : MemState) (a v : Nat) (ha : a ≤ 0xFFFF) :
    (inRanges (delegatedRanges s.mapper.family) a ∨ inRanges (directRanges s.mapper.family) a)
    ∧ ¬(inRanges (delegatedRanges s.mapper.family) a ∧ inRanges (directRanges s.mapper.family) a)
    ∧ (inRanges (delegatedRanges s.mapper.family) a →
        memRead s a = ruleRead s.rom s.mapper a ∧ (memWrite s a v).map = s.map)
    ∧ (inRanges (directRanges s.mapper.family) a →
        memRead s a = s.map (toFin a) ∧ (memWrite s a v).mapper = s.mapper) := by
  have hmask : a % 0x10000 = a := Nat.mod_eq_of_lt (by omega)
  refine ⟨?_, ?_, fun h => ?_, fun h => ?_⟩
  · rcases hb : delegatedB s.mapper.family a with _ | _
    · exact Or.inr ((not_delegatedB_iff_inRanges _ a ha).mp hb)
    · exact Or.inl ((delegatedB_iff_inRanges _ a ha).mp hb)
  · rintro ⟨h1, h2⟩
    have hb1 := (delegatedB_iff_inRanges _ a ha).mpr h1
    have hb2 := (not_delegatedB_iff_inRanges _ a ha).mpr h2
    simp [hb1] at hb2
  · have hb := (delegatedB_iff_inRanges _ a ha).mpr h
    constructor
    · simp [memRead, hmask, hb]
    · simp [memWrite, hmask, hb]
  · have hb := (not_delegatedB_iff_inRanges _ a ha).mpr h
    constructor
    · simp [memRead, hmask, hb]
    · simp [memWrite, hmask, hb]

/-- A CPU write never alters the loaded ROM image. -/
theorem memWrite_rom (s : MemState) (a v : Nat) : (memWrite s a v).rom = s.rom := by
  simp only [memWrite]
  split <;> rfl

/-- A sequence of CPU writes never alters the loaded ROM image. -/
theorem execWrites_rom (ws : List (Nat × Nat)) (s : MemState) :
    (execWrites s ws).rom = s.rom := by
  induction ws generalizing s with
  | nil => rfl
  | cons w ws ih => rw [execWrites, List.foldl_cons, ← execWrites, ih, memWrite_rom]

/-- C2: For the Sega mapper, after writing bank index B to window W's
bank-select register, every subsequent `Read` of an address within window W
returns the byte of the ROM image at offset `B * 16384` plus the intra-window
offset of that address, and the bank-select write itself does not modify the
flat map.  (When W is the last window this presumes the control register does
not currently map cartridge RAM over it.) -/
theorem c2_sega_bank_switch (s : MemState) (regs : SegaRegs) (ram : Fin 0x8000 → Nat)
    (hs : s.mapper = .sega regs ram) (w : Fin 3) (B off : Nat)
    (hB : B < 0x100) (hoff : off < 0x4000)
    (hram : w.val = 2 → regs.ramEnabled = false) :
    memRead (memWrite s (0xFFFD + w.val) B) (w.val * 0x4000 + off)
      = s.rom.getD (B * 0x4000 + off) 0
    ∧ (memWrite s (0xFFFD + w.val) B).map = s.map := by
  have hBmod : B % 0x100 = B := Nat.mod_eq_of_lt hB
  have hoffmod : off % 0x4000 = off := Nat.mod_eq_of_lt hoff
  fin_cases w
  · refine ⟨?_, by simp [memWrite, hs, delegatedB, MapperState.family]⟩
    have hdiv : off / 0x4000 = 0 := Nat.div_eq_of_lt hoff
    have hmask : off % 0x10000 = off := Nat.mod_eq_of_lt (by omega)
    have hlt : off < 0xC000 := by omega
    have hge : ¬(0xFFFC ≤ off) := by omega
    simp [memWrite, memRead, hs, delegatedB, ruleWrite, ruleRead, SegaRegs.bankFor,
      hBmod, hoffmod, hdiv, hmask, hlt, hge, MapperState.family]
  · refine ⟨?_, by simp [memWrite, hs, delegatedB, MapperState.family]⟩
    have hdiv : (0x4000 + off) / 0x4000 = 1 := by omega
    have hmod : (0x4000 + off) % 0x4000 = off := by omega
    have hmask : (0x4000 + off) % 0x10000 = 0x4000 + off := by omega
    have hlt : 0x4000 + off < 0xC000 := by omega
    have hge : ¬(0xFFFC ≤ 0x4000 + off) := by omega
    simp [memWrite, memRead, hs, delegatedB, ruleWrite, ruleRead, SegaRegs.bankFor,
      hBmod, hdiv, hmod, hmask, hlt, hge, MapperState.family]
  · refine ⟨?_, by simp [memWrite, hs, delegatedB, MapperState.family]⟩
    have hdiv : (0x8000 + off) / 0x4000 = 2 := by omega
    have hmod : (0x8000 + off) % 0x4000 = off := by omega
    have hmask : (0x8000 + off) % 0x10000 = 0x8000 + off := by omega
    have hlt : 0x8000 + off < 0xC000 := by omega
    have hge : ¬(0xFFFC ≤ 0x8000 + off) := by omega
    have hre : regs.ramEnabled = false := hram rfl
    simp [memWrite, memRead, hs, delegatedB, ruleWrite, ruleRead, SegaRegs.bankFor,
      hBmod, hdiv, hmod, hmask, hlt, hge, hre, MapperState.family]

/-- C2 counterexample: with cartridge RAM mapped over the last window
(control-register RAM-enable bit set), writing bank index 0 to window 2's
select register and then reading the window's first byte returns the
cartridge RAM byte (0), not the ROM byte at bank 0's offset (7) — so the
claim is false without the cartridge-RAM proviso. -/
theorem c2_sega_bank_switch_counterexample :
    ¬ (memRead (memWrite segaRamMappedState (0xFFFD + (2 : Fin 3).val) 0)
        ((2 : Fin 3).val * 0x4000 + 0)
      = segaRamMappedState.rom.getD (0 * 0x4000 + 0) 0) := by
  decide

/-- C2 witness: in a fresh Sega-mapper state with a one-byte ROM, writing
bank 0 to the window-0 select register (`0xFFFD`) then reading the first
window byte yields ROM byte 0, and the flat map is untouched. -/
theorem c2_sega_bank_switch_witness :
    memRead (memWrite (freshWithRom [7] .sega) (0xFFFD + (0 : Fin 3).val) 0)
        ((0 : Fin 3).val * 0x4000 + 0)
      = (freshWithRom [7] .sega).rom.getD (0 * 0x4000 + 0) 0
    ∧ (memWrite (freshWithRom [7] .sega) (0xFFFD + (0 : Fin 3).val) 0).map
        = (freshWithRom [7] .sega).map :=
  c2_sega_bank_switch (freshWithRom [7] .sega) ⟨0, 1, 2, false, 0⟩ (fun _ => 0) rfl
    0 0 0 (by decide) (by decide) (by intro h; exact absurd h (by decide))

/-- C3: For the Codemasters mapper, writing value V to the first byte address
of a switchable 16KB window W makes every subsequent `Read` within W return
bank V's contents, while the stored ROM bytes are unchanged by the write (the
ROM image before and after the write is byte-for-byte identical). -/
theorem c3_codemasters_trigger (s : MemState) (b0 b1 b2 : Nat)
    (hs : s.mapper = .codemasters b0 b1 b2) (w : Fin 3) (V off : Nat)
    (hV : V < 0x100) (hoff : off < 0x4000) :
    memRead (memWrite s (w.val * 0x4000) V) (w.val * 0x4000 + off)
      = s.rom.getD (V * 0x4000 + off) 0
    ∧ (memWrite s (w.val * 0x4000) V).rom = s.rom := by
  have hVmod : V % 0x100 = V := Nat.mod_eq_of_lt hV
  have hoffmod : off % 0x4000 = off := Nat.mod_eq_of_lt hoff
  refine ⟨?_, memWrite_rom ..⟩
  fin_cases w
  · have hdiv : off / 0x4000 = 0 := Nat.div_eq_of_lt hoff
    have hmask : off % 0x10000 = off := Nat.mod_eq_of_lt (by omega)
    have hlt : off < 0xC000 := by omega
    simp [memWrite, memRead, hs, delegatedB, ruleWrite, ruleRead,
      hVmod, hoffmod, hdiv, hmask, hlt, MapperState.family]
  · have hdiv : (0x4000 + off) / 0x4000 = 1 := by omega
    have hmod : (0x4000 + off) % 0x4000 = off := by omega
    have hmask : (0x4000 + off) % 0x10000 = 0x4000 + off := by omega
    have hlt : 0x4000 + off < 0xC000 := by omega
    simp [memWrite, memRead, hs, delegatedB, ruleWrite, ruleRead,
      hVmod, hdiv, hmod, hmask, hlt, MapperState.family]
  · have hdiv : (0x8000 + off) / 0x4000 = 2 := by omega
    have hmod : (0x8000 + off) % 0x4000 = off := by omega
    have hmask : (0x8000 + off) % 0x10000 = 0x8000 + off := by omega
    have hlt : 0x8000 + off < 0xC000 := by omega
    simp [memWrite, memRead, hs, delegatedB, ruleWrite, ruleRead,
      hVmod, hdiv, hmod, hmask, hlt, MapperState.family]

/-- C3 witness: in a fresh Codemasters-mapper state with a one-byte ROM,
writing bank 0 to the first byte of window 0 then reading the first window
byte yields ROM byte 0, and the ROM image is unchanged. -/
theorem c3_codemasters_trigger_witness :
    memRead (memWrite (freshWithRom [9] .codemasters) ((0 : Fin 3).val * 0x4000) 0)
        ((0 : Fin 3).val * 0x4000 + 0)
      = (freshWithRom [9] .codemasters).rom.getD (0 * 0x4000 + 0) 0
    ∧ (memWrite (freshWithRom [9] .codemasters) ((0 : Fin 3).val * 0x4000) 0).rom
        = (freshWithRom [9] .codemasters).rom :=
  c3_codemasters_trigger (freshWithRom [9] .codemasters) 0 1 2 rfl 0 0 0
    (by decide) (by decide)

/-- Resetting a mapper rule does not change its family. -/
theorem MapperState.family_reset (m : MapperState) : m.reset.family = m.family := by
  cases m <;> rfl

/-- C7: After `Reset()` on a Memory with a loaded cartridge, every read of
directly-addressed RAM returns zero, reads of the ROM windows still reach the
loaded ROM's bank-0 content, and battery-backed cartridge RAM contents are
unchanged by the Reset (though not by a full cartridge reload, which starts
from empty cartridge RAM). -/
theorem c7_reset_semantics (s : MemState) (rom : List Nat) (fam : MapperFamily) (a : Nat) :
    (a ≤ 0xFFFF → inRanges (directRanges s.mapper.family) a → memRead (memReset s) a = 0)
    ∧ (a < 0x4000 → memRead (memReset s) a = s.rom.getD a 0)
    ∧ (memReset s).cartRamOf = s.cartRamOf
    ∧ (freshWithRom rom fam).cartRamOf = fun _ => 0 := by
  refine ⟨fun ha hd => ?_, fun ha => ?_, ?_, ?_⟩
  · have hmask : a % 0x10000 = a := Nat.mod_eq_of_lt (by omega)
    have hb : delegatedB s.mapper.family a = false :=
      (not_delegatedB_iff_inRanges _ a ha).mpr hd
    have hb2 : delegatedB s.mapper.reset.family a = false := by
      rw [MapperState.family_reset]; exact hb
    simp [memRead, hmask, hb2, memReset]
  · have hmask : a % 0x10000 = a := Nat.mod_eq_of_lt (by omega)
    have hlt : a < 0xC000 := by omega
    have hge : ¬(0xFFFC ≤ a) := by omega
    have hdiv : a / 0x4000 = 0 := Nat.div_eq_of_lt ha
    have hmod : a % 0x4000 = a := Nat.mod_eq_of_lt ha
    cases hm : s.mapper <;>
      simp [memRead, memReset, MapperState.reset, hm, ruleRead, delegatedB,
        MapperState.family, SegaRegs.bankFor, hmask, hlt, hge, hdiv, hmod]
  · cases hm : s.mapper <;> simp [MemState.cartRamOf, memReset, MapperState.reset, hm]
  · cases fam <;> simp [MemState.cartRamOf, freshWithRom, initMapper]

/-- C7 witness: in a fresh Sega-mapper state with a one-byte ROM, after
`Reset` the direct RAM byte at `0xC000` reads zero, the first ROM-window byte
reads ROM byte 0, and the cartridge RAM is preserved. -/
theorem c7_reset_semantics_witness :
    memRead (memReset (freshWithRom [3] .sega)) 0xC000 = 0
    ∧ memRead (memReset (freshWithRom [3] .sega)) 0 = (freshWithRom [3] .sega).rom.getD 0 0
    ∧ (memReset (freshWithRom [3] .sega)).cartRamOf = (freshWithRom [3] .sega).cartRamOf :=
  ⟨(c7_reset_semantics (freshWithRom [3] .sega) [] .romOnly 0xC000).1 (by decide) (by decide),
   (c7_reset_semantics (freshWithRom [3] .sega) [] .romOnly 0).2.1 (by decide),
   (c7_reset_semantics (freshWithRom [3] .sega) [] .romOnly 0).2.2.1⟩

/-- C8: `LoadState` given a buffer of unexpected size or carrying an
unrecognized mapper-family tag fails, and the failure is reported as a
boolean/result outcome to the caller (`retro_unserialize` returns the bool
from `core->LoadState`), never as an exception across the Read/Write path. -/
theorem c8_loadstate_failure (s : MemState) (buf : List Nat)
    (h : decodeFam (buf.getD 0x10000 0) = none
       ∨ ∃ fam, decodeFam (buf.getD 0x10000 0) = some fam
           ∧ buf.length ≠ 0x10000 + mapperStateSize fam) :
    memLoadState buf s = none ∧ retro_unserialize s buf = false := by
  have hnone : memLoadState buf s = none := by
    rcases h with h | ⟨fam, hfam, hlen⟩
    · simp only [memLoadState, h]
    · simp only [memLoadState, hfam]
      simp [hlen]
  exact ⟨hnone, by simp [retro_unserialize, hnone]⟩

/-- C8 witness: an empty buffer (wrong size for its decoded family) makes
`LoadState` fail and `retro_unserialize` report `false`. -/
theorem c8_loadstate_failure_witness :
    memLoadState [] (freshWithRom [] .romOnly) = none
    ∧ retro_unserialize (freshWithRom [] .romOnly) [] = false :=
  c8_loadstate_failure (freshWithRom [] .romOnly) []
    (Or.inr ⟨.romOnly, by decide, by decide⟩)

/-- Membership of a `KeyPressed` call among the calls issued for one
directional button. -/
theorem mem_dirEvents (allow held opp : Bool) (p q : Nat) (k k2 : GSKey) :
    InputEvent.pressed q k2 ∈ dirEvents allow held opp p k
      ↔ q = p ∧ k2 = k ∧ held = true ∧ (allow = true ∨ opp = false) := by
  cases held <;> cases allow <;> cases opp <;> simp [dirEvents]

/-- Membership of a `KeyPressed` call among the calls issued for one
non-directional button. -/
theorem mem_btnEvents (held : Bool) (p q : Nat) (k k2 : GSKey) :
    InputEvent.pressed q k2 ∈ btnEvents held p k ↔ q = p ∧ k2 = k ∧ held = true := by
  cases held <;> simp [btnEvents]

/-- C10: In `update_input`, whenever `allow_up_down` is false, the core is
never told that a player holds both members of an opposing direction pair at
once in a single poll: `KeyPressed(Up)` is suppressed while Down is reported
held, and symmetrically for Down, Left, and Right; when `allow_up_down` is
true both presses are forwarded. -/
theorem c10_opposing_direction_suppression (inp : Nat → Nat → Bool) (p : Nat) (hp : p < 2) :
    ((inp p JOYPAD_DOWN = true → InputEvent.pressed p .up ∉ update_input false inp)
     ∧ (inp p JOYPAD_UP = true → InputEvent.pressed p .down ∉ update_input false inp)
     ∧ (inp p JOYPAD_RIGHT = true → InputEvent.pressed p .left ∉ update_input false inp)
     ∧ (inp p JOYPAD_LEFT = true → InputEvent.pressed p .right ∉ update_input false inp))
    ∧ (inp p JOYPAD_UP = true → inp p JOYPAD_DOWN = true →
        InputEvent.pressed p .up ∈ update_input true inp
        ∧ InputEvent.pressed p .down ∈ update_input true inp)
    ∧ (inp p JOYPAD_LEFT = true → inp p JOYPAD_RIGHT = true →
        InputEvent.pressed p .left ∈ update_input true inp
        ∧ InputEvent.pressed p .right ∈ update_input true inp) := by
  have hp01 : p = 0 ∨ p = 1 := by omega
  rcases hp01 with rfl | rfl <;>
    refine ⟨⟨fun h => ?_, fun h => ?_, fun h => ?_, fun h => ?_⟩,
      fun h1 h2 => ?_, fun h1 h2 => ?_⟩ <;>
    simp_all [update_input, List.mem_append, playerEvents, mem_dirEvents, mem_btnEvents]

/-- C10 witness: with both Up and Down reported held for player 0, no
`KeyPressed(Up)` is issued when `allow_up_down` is off, and both presses are
issued when it is on. -/
theorem c10_opposing_direction_suppression_witness :
    InputEvent.pressed 0 .up ∉ update_input false (fun _ _ => true)
    ∧ (InputEvent.pressed 0 .up ∈ update_input true (fun _ _ => true)
       ∧ InputEvent.pressed 0 .down ∈ update_input true (fun _ _ => true)) :=
  ⟨(c10_opposing_direction_suppression (fun _ _ => true) 0 (by decide)).1.1 rfl,
   (c10_opposing_direction_suppression (fun _ _ => true) 0 (by decide)).2.1 rfl rfl⟩

/-- Reading `List.ofFn` with `getD` and default 0 evaluates the function. -/
theorem getD_ofFn {n : Nat} (f : Fin n → Nat) (i : Nat) (h : i < n) :
    (List.ofFn f).getD i 0 = f ⟨i, h⟩ := by
  rw [List.getD_eq_getElem _ _ (by simpa using h)]
  simp [List.getElem_ofFn]

/-- The low 64K entries of a save-state buffer are the flat-map bytes. -/
theorem memSaveState_getD_map (s : MemState) (i : Nat) (h : i < 0x10000) :
    (memSaveState s).getD i 0 = s.map ⟨i, h⟩ := by
  rw [memSaveState, List.getD_append _ _ _ _ (by rw [List.length_ofFn]; omega),
    getD_ofFn _ _ h]

/-- Entries of a save-state buffer past the flat map index the serialized
mapper state. -/
theorem memSaveState_getD_high (s : MemState) (n : Nat) (h : 0x10000 ≤ n) :
    (memSaveState s).getD n 0 = (serializeMapper s.mapper).getD (n - 0x10000) 0 := by
  rw [memSaveState, List.getD_append_right _ _ _ _ (by rw [List.length_ofFn]; omega),
    List.length_ofFn]

/-- The family-tag byte of a save-state buffer. -/
theorem memSaveState_tag (s : MemState) :
    (memSaveState s).getD 0x10000 0 = famTag s.mapper.family := by
  have h := memSaveState_getD_high s 0x10000 (le_refl _)
  rw [h, Nat.sub_self]
  cases s.mapper <;> rfl

/-- Decoding a family's own tag succeeds. -/
theorem decodeFam_famTag (fam : MapperFamily) : decodeFam (famTag fam) = some fam := by
  cases fam <;> rfl

/-- A save-state buffer has exactly the size the family requires. -/
theorem memSaveState_length (s : MemState) :
    (memSaveState s).length = 0x10000 + mapperStateSize s.mapper.family := by
  rw [memSaveState, List.length_append, List.length_ofFn]
  congr 1
  cases s.mapper <;>
    simp only [serializeMapper, mapperStateSize, MapperState.family,
      List.length_append, List.length_ofFn, List.length_cons, List.length_nil]

/-- Decoding a save-state buffer's mapper segment restores the mapper state
it was serialized from. -/
theorem decodeMapper_memSaveState (s : MemState) :
    decodeMapper s.mapper.family (memSaveState s) = s.mapper := by
  obtain ⟨map, rom, mapper, bps, rt⟩ := s
  cases mapper with
  | romOnly => rfl
  | sg1000 => rfl
  | sega regs ram =>
    obtain ⟨b0, b1, b2, e, rb⟩ := regs
    simp only [MapperState.family, decodeMapper, MapperState.sega.injEq, SegaRegs.mk.injEq]
    refine ⟨⟨?_, ?_, ?_, ?_, ?_⟩, ?_⟩
    · rw [memSaveState_getD_high _ _ (by norm_num)]; rfl
    · rw [memSaveState_getD_high _ _ (by norm_num)]; rfl
    · rw [memSaveState_getD_high _ _ (by norm_num)]; rfl
    · rw [memSaveState_getD_high _ _ (by norm_num)]
      cases e <;> rfl
    · rw [memSaveState_getD_high _ _ (by norm_num)]; rfl
    · funext i
      rw [memSaveState_getD_high _ _ (by omega)]
      have h6 : 0x10006 + i.val - 0x10000 = 6 + i.val := by omega
      rw [h6]
      show ([1, b0, b1, b2, cond e 1 0, rb]
          ++ List.ofFn (fun j : Fin 0x8000 => ram j)).getD (6 + i.val) 0 = ram i
      rw [List.getD_append_right _ _ _ _ (Nat.le_add_right 6 i.val)]
      have h7 : 6 + i.val - [1, b0, b1, b2, cond e 1 0, rb].length = i.val := by
        simp
      rw [h7, getD_ofFn _ _ i.isLt]
  | codemasters b0 b1 b2 =>
    simp only [MapperState.family, decodeMapper, MapperState.codemasters.injEq]
    refine ⟨?_, ?_, ?_⟩ <;> (rw [memSaveState_getD_high _ _ (by norm_num)]; rfl)
  | korean b =>
    simp only [MapperState.family, decodeMapper, MapperState.korean.injEq]
    rw [memSaveState_getD_high _ _ (by norm_num)]; rfl

/-- Loading succeeds on a buffer whose tag decodes and whose length is
what the decoded family requires, and restores from the buffer. -/
theorem memLoadState_eq_some (buf : List Nat) (t : MemState) (fam : MapperFamily)
    (htag : decodeFam (buf.getD 0x10000 0) = some fam)
    (hlen : buf.length = 0x10000 + mapperStateSize fam) :
    memLoadState buf t
      = some { t with map := fun i => buf.getD i 0, mapper := decodeMapper fam buf } := by
  unfold memLoadState
  rw [htag]
  dsimp only
  rw [if_pos hlen]

/-- Loading a captured save-state buffer succeeds and restores the
flat-map contents and mapper state of the serialized machine into the target
Memory. -/
theorem memLoadState_memSaveState (s t : MemState) :
    memLoadState (memSaveState s) t
      = some { t with map := fun i => (memSaveState s).getD i 0, mapper := s.mapper } := by
  rw [memLoadState_eq_some (memSaveState s) t s.mapper.family
      (by rw [memSaveState_tag, decodeFam_famTag]) (memSaveState_length s),
    decodeMapper_memSaveState]

/-- Reads depend only on the flat map, the ROM and the mapper state, never
on the debugger bookkeeping. -/
theorem memRead_congr (s1 s2 : MemState) (h1 : s1.map = s2.map) (h2 : s1.rom = s2.rom)
    (h3 : s1.mapper = s2.mapper) (a : Nat) : memRead s1 a = memRead s2 a := by
  unfold memRead
  rw [h1, h2, h3]

/-- C1: For every reachable machine state produced by any sequence of writes,
calling `SaveState` and then `LoadState` of the captured buffer into a
freshly reset Memory yields a state in which `Read` returns the same byte as
the original state for every address, including addresses whose contents
depend on the current bank selection. -/
theorem c1_savestate_roundtrip (rom : List Nat) (fam : MapperFamily)
    (ws : List (Nat × Nat)) (a : Nat) :
    Option.map (fun m => memRead m a)
        (memLoadState (memSaveState (execWrites (freshWithRom rom fam) ws))
          (freshWithRom rom fam))
      = some (memRead (execWrites (freshWithRom rom fam) ws) a) := by
  set s := execWrites (freshWithRom rom fam) ws with hs
  have hrom : (freshWithRom rom fam).rom = s.rom := by
    rw [hs, execWrites_rom]
  have hmap : (fun i : Fin 0x10000 => (memSaveState s).getD (↑i) 0) = s.map := by
    funext i
    rw [memSaveState_getD_map s i.val i.isLt]
  rw [memLoadState_memSaveState, hmap, Option.map_some']
  congr 1
  apply memRead_congr
  · rfl
  · exact hrom
  · rfl

/-- C4 witness: concrete routing at addresses `0x0000` (delegated) and
`0xC000` (direct) in a fresh Sega-mapper state. -/
theorem c4_partition_totality_witness :
    (inRanges (delegatedRanges (freshWithRom [7] .sega).mapper.family) 0
      ∨ inRanges (directRanges (freshWithRom [7] .sega).mapper.family) 0)
    ∧ (inRanges (directRanges (freshWithRom [7] .sega).mapper.family) 0xC000 →
        memRead (freshWithRom [7] .sega) 0xC000 = (freshWithRom [7] .sega).map (toFin 0xC000)
        ∧ (memWrite (freshWithRom [7] .sega) 0xC000 9).mapper = (freshWithRom [7] .sega).mapper) :=
  ⟨(c4_partition_totality (freshWithRom [7] .sega) 0 9 (by decide)).1,
   (c4_partition_totality (freshWithRom [7] .sega) 0xC000 9 (by decide)).2.2.2⟩
